import Mathlib

/-!
Shallow embedding of the roboptim NAG sparse-NLP adapter
(src/src/nag-nlp-sparse.cc) and verification of its specification.

Doubles are modelled by extended rationals (`RVal`): `nan`, `ninf` (-inf),
`fin q`, `pinf` (+inf), with IEEE-style comparison and subtraction where
the source performs them on possibly-infinite bounds.
-/

/-- IEEE-double-like value: NaN, -infinity, finite, +infinity. -/
inductive RVal where
  | nan : RVal
  | ninf : RVal
  | fin : ℚ → RVal
  | pinf : RVal
deriving DecidableEq, Repr

/-- IEEE comparison `a <= b` (false whenever NaN is involved). -/
def RVal.le : RVal → RVal → Bool
  | .nan, _ => false
  | _, .nan => false
  | .ninf, _ => true
  | _, .pinf => true
  | .fin a, .fin b => a ≤ b
  | .pinf, _ => false
  | .fin _, .ninf => false

/-- IEEE subtraction on extended values (inf - inf of same sign is NaN). -/
def RVal.sub : RVal → RVal → RVal
  | .nan, _ => .nan
  | _, .nan => .nan
  | .ninf, .ninf => .nan
  | .pinf, .pinf => .nan
  | .ninf, _ => .ninf
  | .pinf, _ => .pinf
  | .fin _, .ninf => .pinf
  | .fin _, .pinf => .ninf
  | .fin a, .fin b => .fin (a - b)

/-- Division by two (used by `lookForX` for the interval case). -/
def RVal.half : RVal → RVal
  | .nan => .nan
  | .ninf => .ninf
  | .pinf => .pinf
  | .fin a => .fin (a / 2)

/-- `|v| < t` on a double: false for NaN and infinities. -/
def RVal.absLt : RVal → ℚ → Bool
  | .fin q, t => |q| < t
  | _, _ => false

/-- `|a - b| < t` on doubles: true only when both operands are finite. -/
def RVal.diffAbsLt : RVal → RVal → ℚ → Bool
  | .fin a, .fin b, t => |a - b| < t
  | _, _, _ => false

/-- Row-major sparse matrix (roboptim EigenMatrixSparse is row-major):
    dimensions plus a total entry function; structural nonzeros are the
    entries with a nonzero value. -/
structure SpMat where
  rows : ℕ
  cols : ℕ
  entry : ℕ → ℕ → ℚ

/-- Nonzero values of row `r`, in column order (Eigen InnerIterator). -/
def SpMat.rowNzvals (m : SpMat) (r : ℕ) : List ℚ :=
  (List.range m.cols).filterMap fun c =>
    if m.entry r c = 0 then none else some (m.entry r c)

/-- All nonzero values in row-major order (the outer/inner iteration of
    `for k < outerSize; InnerIterator it(j,k)` in the source). -/
def SpMat.nzvals (m : SpMat) : List ℚ :=
  (List.range m.rows).foldr (fun r acc => m.rowNzvals r ++ acc) []

/-- Nonzero coordinates of row `r` as 1-based (row+rowOffset+1, col+1)
    pairs, as pushed into `igfun_`/`jgvar_` and `iafun_`/`javar_`. -/
def SpMat.rowPattern (m : SpMat) (off r : ℕ) : List (ℕ × ℕ) :=
  (List.range m.cols).filterMap fun c =>
    if m.entry r c = 0 then none else some (off + r + 1, c + 1)

/-- All nonzero coordinates in row-major order, rows shifted by `off`. -/
def SpMat.pattern (m : SpMat) (off : ℕ) : List (ℕ × ℕ) :=
  (List.range m.rows).foldr (fun r acc => m.rowPattern off r ++ acc) []

/-- A differentiable roboptim function: output size, value and Jacobian
    evaluation (arguments may be infinite since the representative point
    built by `lookForX` can contain infinities). -/
structure DiffFun where
  outSize : ℕ
  value : List RVal → List ℚ
  jac : List RVal → SpMat

/-- A constraint as the adapter distinguishes them: linear (`A·x + b`,
    recognised by `asType<linearFunction_t>`) or general nonlinear. -/
inductive Constraint where
  | linear : SpMat → List ℚ → Constraint
  | nonlinear : DiffFun → Constraint

/-- `asType<linearFunction_t>` test. -/
def Constraint.isLin : Constraint → Bool
  | .linear _ _ => true
  | .nonlinear _ => false

/-- `outputSize()` of a constraint (for a linear one, the rows of A). -/
def Constraint.size : Constraint → ℕ
  | .linear A _ => A.rows
  | .nonlinear f => f.outSize

/-- The jacobian a `castInto<nonlinearFunction_t>`d constraint reports:
    for a linear function it is the constant matrix A. -/
def Constraint.jacAt : Constraint → List RVal → SpMat
  | .linear A _, _ => A
  | .nonlinear f, x => f.jac x

/-- The problem handed to the adapter: input size, objective, ordered
    constraint list, per-constraint per-output bound pairs
    (`problem().boundsVector()`), optional starting point. -/
structure Problem where
  n : ℕ
  objective : DiffFun
  constraints : List Constraint
  cstrBounds : List (List (RVal × RVal))
  startPt : Option (List ℚ)

/-- `problem().boundsVector()[cid][k]` (out-of-range reads modelled by a
    default, never exercised by the theorems below). -/
def Problem.boundsOf (p : Problem) (cid k : ℕ) : RVal × RVal :=
  ((p.cstrBounds.getD cid []).getD k (.fin 0, .fin 0))

/-- `lookForX ()`: the starting point if supplied, otherwise zero. -/
def lookForX0 (p : Problem) : List RVal :=
  match p.startPt with
  | some s => s.map RVal.fin
  | none => List.replicate p.n (RVal.fin 0)

/-- `lookForX (unsigned constraintId)`, exactly as the source computes it:
    with no starting point, for each variable index `i`, if
    `bounds.first != +inf && bounds.second != +inf` take
    `(second - first) / 2`; else if `bounds.first != +inf` take `first`;
    else take `second`. -/
def lookForX (p : Problem) (cid : ℕ) : List RVal :=
  match p.startPt with
  | some s => s.map RVal.fin
  | none =>
    (List.range p.n).map fun i =>
      let lo := (p.boundsOf cid i).1
      let hi := (p.boundsOf cid i).2
      if lo ≠ RVal.pinf ∧ hi ≠ RVal.pinf then (hi.sub lo).half
      else if lo ≠ RVal.pinf then lo
      else hi

/-- `compute_nf ()`: objective output size plus, looping over all
    constraints, the output size of each (linear or nonlinear) one. -/
def compute_nfAux : List Constraint → ℕ
  | [] => 0
  | c :: rest => c.size + compute_nfAux rest

/-- The combined row count `nf_`. -/
def compute_nf (p : Problem) : ℕ :=
  p.objective.outSize + compute_nfAux p.constraints

/-- Sum of constraint output sizes (the spec's `Σ(constraint output
    sizes)`). -/
def totalSize (p : Problem) : ℕ :=
  (p.constraints.map Constraint.size).sum

/-- Sum of nonlinear constraint output sizes. -/
def sumNl (p : Problem) : ℕ :=
  ((p.constraints.filter fun c => !c.isLin).map Constraint.size).sum

/-- Sum of linear constraint output sizes. -/
def sumLin (p : Problem) : ℕ :=
  ((p.constraints.filter Constraint.isLin).map Constraint.size).sum

/-- First loop of `fill_flow_fupp`: the nonlinear constraint rows in
    constraint-list order, each block copying the declared bounds
    `boundsVector()[constraintId][i]` for `i < outputSize`. -/
def nlRowsAux (p : Problem) : ℕ → List Constraint → List (RVal × RVal)
  | _, [] => []
  | cid, c :: rest =>
    (match c with
     | .linear _ _ => []
     | .nonlinear f => (List.range f.outSize).map fun i => p.boundsOf cid i)
    ++ nlRowsAux p (cid + 1) rest

/-- Nonlinear bound rows of the combined layout. -/
def nlRows (p : Problem) : List (RVal × RVal) :=
  nlRowsAux p 0 p.constraints

/-- Rows one constraint contributes to the linear section of
    `fill_flow_fupp`: for a linear constraint, the declared bounds each
    shifted by that row's offset component (`bounds - g->b()[i]`);
    nothing for a nonlinear one. -/
def linBlock (p : Problem) (cid : ℕ) : Constraint → List (RVal × RVal)
  | .linear A b =>
    (List.range A.rows).map fun i =>
      ((p.boundsOf cid i).1.sub (RVal.fin (b.getD i 0)),
       (p.boundsOf cid i).2.sub (RVal.fin (b.getD i 0)))
  | .nonlinear _ => []

/-- Second loop of `fill_flow_fupp` over the constraint list. -/
def linRowsAux (p : Problem) : ℕ → List Constraint → List (RVal × RVal)
  | _, [] => []
  | cid, c :: rest => linBlock p cid c ++ linRowsAux p (cid + 1) rest

/-- Linear bound rows of the combined layout (before snapping). -/
def linRows (p : Problem) : List (RVal × RVal) :=
  linRowsAux p 0 p.constraints

/-- The combined row bounds as assembled by `fill_flow_fupp` before the
    tolerance pass: row 0 is `(-inf, +inf)` for the cost function, then
    nonlinear rows, then shifted linear rows. -/
def flowFuppPre (p : Problem) : List (RVal × RVal) :=
  (RVal.ninf, RVal.pinf) :: (nlRows p ++ linRows p)

/-- The bound-snapping tolerance hard-coded in the source (1e-6). -/
def snapTol : ℚ := 1 / 1000000

/-- One row of the consistency pass at the end of `fill_flow_fupp`:
    snap `flow` to zero if `|flow| < 1e-6`, snap `fupp` to zero if
    `|fupp| < 1e-6`, then set `flow = fupp` if `|flow - fupp| < 1e-6`. -/
def snapRow (r : RVal × RVal) : RVal × RVal :=
  let lo := if r.1.absLt snapTol then RVal.fin 0 else r.1
  let hi := if r.2.absLt snapTol then RVal.fin 0 else r.2
  (if lo.diffAbsLt hi snapTol then hi else lo, hi)

/-- `fill_flow_fupp` with the final `assert (flow_[id] <= fupp_[id])`
    modelled as failure (`none` = fatal configuration error). -/
def fill_flow_fupp (p : Problem) : Option (List (RVal × RVal)) :=
  let snapped := (flowFuppPre p).map snapRow
  if snapped.all (fun r => r.1.le r.2) then some snapped else none

/-- Initial offset computed by `fill_iafun_javar_lena_nea`: the objective
    output size plus, skipping linear constraints, each nonlinear
    constraint's output size (the loop of lines 424-438). -/
def iafunStartAux : List Constraint → ℕ
  | [] => 0
  | .linear _ _ :: rest => iafunStartAux rest
  | .nonlinear f :: rest => f.outSize + iafunStartAux rest

/-- The combined-row offset at which `fill_iafun_javar_lena_nea` starts
    placing linear constraint coefficient rows. -/
def iafunStartOffset (p : Problem) : ℕ :=
  p.objective.outSize + iafunStartAux p.constraints

/-- Loop of `fill_igfun_jgvar_leng_neg` over the constraints: linear ones
    are skipped without advancing the offset; for each nonlinear one the
    Jacobian is evaluated at `lookForX (constraintId)` and its nonzero
    coordinates pushed with the current row offset, which then advances
    by `jac.rows ()`. -/
def igfunAux (p : Problem) : ℕ → ℕ → List Constraint → List (ℕ × ℕ)
  | _, _, [] => []
  | off, cid, .linear _ _ :: rest => igfunAux p off (cid + 1) rest
  | off, cid, .nonlinear f :: rest =>
    let jac := f.jac (lookForX p cid)
    jac.pattern off ++ igfunAux p (off + jac.rows) (cid + 1) rest

/-- The (igfun, jgvar) coordinate list built by
    `fill_igfun_jgvar_leng_neg`: objective Jacobian at `lookForX ()`
    first, then the nonlinear constraint blocks. -/
def fill_igfun_pairs (p : Problem) : List (ℕ × ℕ) :=
  let objJac := p.objective.jac (lookForX0 p)
  objJac.pattern 0 ++ igfunAux p objJac.rows 0 p.constraints

/-- `leng_`: the pattern length, with the empty-pattern placeholder rule
    (`leng_ = 1` when no entry was recorded). -/
def leng (p : Problem) : ℕ :=
  if (fill_igfun_pairs p).length = 0 then 1 else (fill_igfun_pairs p).length

/-- The row offsets `fill_igfun_jgvar_leng_neg` uses for the successive
    nonlinear constraint blocks, in constraint-list order. -/
def igfunOffsetsAux (p : Problem) : ℕ → ℕ → List Constraint → List ℕ
  | _, _, [] => []
  | off, cid, .linear _ _ :: rest => igfunOffsetsAux p off (cid + 1) rest
  | off, cid, .nonlinear f :: rest =>
    off :: igfunOffsetsAux p (off + (f.jac (lookForX p cid)).rows) (cid + 1) rest

/-- Row offsets of the nonlinear constraint blocks in the G pattern. -/
def igfunOffsets (p : Problem) : List ℕ :=
  igfunOffsetsAux p (p.objective.jac (lookForX0 p)).rows 0 p.constraints

/-- The combined-row offsets of the nonlinear constraint blocks in the
    fixed layout: 1 + a prefix sum of the nonlinear output sizes. -/
def layoutNlOffsetsAux : ℕ → List Constraint → List ℕ
  | _, [] => []
  | off, .linear _ _ :: rest => layoutNlOffsetsAux off rest
  | off, .nonlinear f :: rest => off :: layoutNlOffsetsAux (off + f.outSize) rest

/-- Layout offsets of the nonlinear blocks (row 0 is the objective). -/
def layoutNlOffsets (p : Problem) : List ℕ :=
  layoutNlOffsetsAux 1 p.constraints

/-- Every Jacobian the pattern builder evaluates reports as many rows as
    the function's output size (finitely many checks: one per nonlinear
    constraint plus the objective at their representative points). -/
def jacRowsOkAux (p : Problem) : ℕ → List Constraint → Bool
  | _, [] => true
  | cid, .linear _ _ :: rest => jacRowsOkAux p (cid + 1) rest
  | cid, .nonlinear f :: rest =>
    ((f.jac (lookForX p cid)).rows == f.outSize) && jacRowsOkAux p (cid + 1) rest

/-- Dimension discipline of the Jacobians seen by the pattern builder. -/
def jacRowsOk (p : Problem) : Bool :=
  ((p.objective.jac (lookForX0 p)).rows == p.objective.outSize)
    && jacRowsOkAux p 0 p.constraints

/-- Values written by the `needf > 0` branch of `detail::usrfun`:
    the objective value into row 0 (`f_.head<1>()`), then each nonlinear
    constraint's output block in constraint-list order; linear rows are
    left untouched. -/
def usrfunFAux (x : List RVal) : List Constraint → List ℚ
  | [] => []
  | .linear _ _ :: rest => usrfunFAux x rest
  | .nonlinear f :: rest => f.value x ++ usrfunFAux x rest

/-- The written f-prefix of the evaluation callback. -/
def usrfunFVals (p : Problem) (x : List ℚ) : List ℚ :=
  (p.objective.value (x.map RVal.fin)).take 1 ++ usrfunFAux (x.map RVal.fin) p.constraints

/-- The final value of `offset` in the `needf > 0` branch: starts at 1,
    advances by each nonlinear constraint's output size in the first
    loop and by each linear constraint's output size in the second
    (the value the source then asserts equal to `nf`). -/
def usrfunFEndOffset (p : Problem) : ℕ :=
  1 + sumNl p + sumLin p

/-- The `needg > 0` branch of `detail::usrfun` as written in the source:
    after the objective Jacobian, the loop at line 173 executes
    `if (!(*it)->asType<linearFunction_t> ()) continue;` — it SKIPS the
    nonlinear constraints and evaluates the Jacobian of each LINEAR
    constraint (whose Jacobian is its constant matrix A). -/
def usrfunGAux (x : List RVal) : List Constraint → List ℚ
  | [] => []
  | .nonlinear _ :: rest => usrfunGAux x rest
  | .linear A _ :: rest => A.nzvals ++ usrfunGAux x rest

/-- The values written to `g` by the Jacobian branch of the callback. -/
def usrfunGVals (p : Problem) (x : List ℚ) : List ℚ :=
  (p.objective.jac (x.map RVal.fin)).nzvals ++ usrfunGAux (x.map RVal.fin) p.constraints

/-- The constraints whose Jacobian the `needg` branch actually
    evaluates (those passing the filter at line 177 of the source). -/
def gEvaluatedConstraints (p : Problem) : List Constraint :=
  p.constraints.filter Constraint.isLin

/-- The constraints whose Jacobian the pattern builder
    `fill_igfun_jgvar_leng_neg` records (those passing line 522). -/
def patternConstraints (p : Problem) : List Constraint :=
  p.constraints.filter fun c => !c.isLin

/-- Observable effect of one invocation of `detail::usrfun`: the values
    written into the `f` region, the values written into `g`, how many
    times the registered monitor ran, and the point published into the
    solver state (if any). -/
structure UsrfunEffect where
  fWritten : List ℚ
  gWritten : List ℚ
  monitorCalls : ℕ
  stateX : Option (List ℚ)
deriving Repr

/-- `detail::usrfun` end to end: the terminal test `*status >= 2` returns
    before any work; otherwise the value and Jacobian branches run as
    requested, and finally, if a callback is registered, `solverState.x`
    is set to the candidate point and the monitor invoked once. -/
def usrfun (p : Problem) (status needf needg : ℤ) (hasMonitor : Bool)
    (x : List ℚ) : UsrfunEffect :=
  if status ≥ 2 then ⟨[], [], 0, none⟩
  else
    let fW := if needf > 0 then usrfunFVals p x else []
    let gW := if needg > 0 then usrfunGVals p x else []
    if hasMonitor then ⟨fW, gW, 1, some x⟩ else ⟨fW, gW, 0, none⟩

/-- One entry of the `fnames_` array (string contents abstracted to the
    structural data the source formats into them). -/
inductive FName where
  | cost : FName
  | nl : ℕ → ℕ → FName
  | lin : ℕ → ℕ → FName
deriving DecidableEq, Repr

/-- Names pushed by one run of `fill_fnames`: the cost name, then one
    name per nonlinear constraint output, then one per linear
    constraint output. -/
def fnamesNlAux : ℕ → List Constraint → List FName
  | _, [] => []
  | cid, .linear _ _ :: rest => fnamesNlAux (cid + 1) rest
  | cid, .nonlinear f :: rest =>
    ((List.range f.outSize).map (FName.nl cid)) ++ fnamesNlAux (cid + 1) rest

def fnamesLinAux : ℕ → List Constraint → List FName
  | _, [] => []
  | cid, .nonlinear _ :: rest => fnamesLinAux (cid + 1) rest
  | cid, .linear A _ :: rest =>
    ((List.range A.rows).map (FName.lin cid)) ++ fnamesLinAux (cid + 1) rest

/-- The names one execution of `fill_fnames` pushes. -/
def fnamesOf (p : Problem) : List FName :=
  FName.cost :: (fnamesNlAux 0 p.constraints ++ fnamesLinAux 0 p.constraints)

/-- `fill_fnames` only ever `push_back`s onto `fnames_`; it never clears
    the vector, so its effect on the member is appending. -/
def fill_fnames (prev : List FName) (p : Problem) : List FName :=
  prev ++ fnamesOf p

/-- The member state `solve ()` accumulates across calls: the function
    name array and the variable name count (`xnames_`), both only ever
    pushed to, never cleared. -/
structure NamesState where
  fnames : List FName
  xnamesCount : ℕ
deriving DecidableEq, Repr

/-- Effect of one `solve ()` call on the name arrays: `fill_fnames`
    appends `fnamesOf`, and the loop before the NAG call pushes one
    variable name per input dimension. -/
def solveNamesStep (p : Problem) (s : NamesState) : NamesState :=
  ⟨fill_fnames s.fnames p, s.xnamesCount + p.n⟩

/-- The structured result the Result Translator builds from the flat
    arrays: `res.x = x_`, `res.value[0] = f_[0]`,
    `res.constraints = f_.segment (1, nf-1)`,
    `res.lambda = fmul_.segment (1, nf-1)`. -/
structure RoResult where
  x : List ℚ
  value0 : ℚ
  constraints : List ℚ
  lambda : List ℚ
deriving DecidableEq, Repr

/-- Outcome stored in `result_`: a plain Result on success, a
    SolverError wrapping the diagnostic message and the last state on
    any other status code. -/
inductive Outcome where
  | success : RoResult → Outcome
  | failure : String → RoResult → Outcome
deriving DecidableEq, Repr

/-- Tail of `solve ()` (lines 706-724): build `res` from the flat output
    arrays, then store it as success iff `fail.code == NE_NOERROR`
    (code 0), else store a SolverError carrying `fail.message` and
    `res` as last state. Total: no exception escapes this path. -/
def translateResult (failCode : ℤ) (msg : String) (nf : ℕ)
    (x f fmul : List ℚ) : Outcome :=
  let res : RoResult :=
    ⟨x, f.getD 0 0, (f.drop 1).take (nf - 1), (fmul.drop 1).take (nf - 1)⟩
  if failCode = 0 then .success res else .failure msg res

/-! Concrete problem instances used to exercise the definitions. -/

/-- A 1-input, 1-output objective with constant Jacobian entry 1. -/
def objOne : DiffFun := ⟨1, fun _ => [0], fun _ => ⟨1, 1, fun _ _ => 1⟩⟩

/-- A scalar nonlinear constraint with constant Jacobian entry 2. -/
def gNonlin : DiffFun := ⟨1, fun _ => [7], fun _ => ⟨1, 1, fun _ _ => 2⟩⟩

/-- A 1x1 coefficient matrix with the single entry 3. -/
def matA : SpMat := ⟨1, 1, fun _ _ => 3⟩

/-- One nonlinear constraint, starting point supplied. -/
def pbN : Problem :=
  ⟨1, objOne, [.nonlinear gNonlin], [[(RVal.fin 0, RVal.fin 1)]], some [1]⟩

/-- One linear constraint `3*x + 5` with declared bounds [1, 3]. -/
def pbL : Problem :=
  ⟨1, objOne, [.linear matA [5]], [[(RVal.fin 1, RVal.fin 3)]], some [0]⟩

/-- One nonlinear then one linear constraint. -/
def pbMix : Problem :=
  ⟨2, objOne, [.nonlinear gNonlin, .linear matA [5]],
   [[(RVal.fin 0, RVal.fin 1)], [(RVal.fin 1, RVal.fin 3)]], some [0, 0]⟩

/-- No starting point; the constraint bound interval is [2, 4]. -/
def pbNoStart : Problem :=
  ⟨1, objOne, [.nonlinear gNonlin], [[(RVal.fin 2, RVal.fin 4)]], none⟩

/-- No starting point and a fully unbounded row. -/
def pbFree : Problem :=
  ⟨1, objOne, [.nonlinear gNonlin], [[(RVal.ninf, RVal.pinf)]], none⟩

/-- The snapped rows `fill_flow_fupp` produces for `pbL`. -/
def snappedL : List (RVal × RVal) :=
  [(RVal.ninf, RVal.pinf), (RVal.fin (-4), RVal.fin (-2))]

/-! Helper lemmas about the layout arithmetic. -/

theorem compute_nfAux_eq_sum (l : List Constraint) :
    compute_nfAux l = (l.map Constraint.size).sum := by
  induction l with
  | nil => simp [compute_nfAux]
  | cons c rest ih => simp [compute_nfAux, ih]

theorem sum_size_partition (l : List Constraint) :
    (l.map Constraint.size).sum =
      ((l.filter fun c => !c.isLin).map Constraint.size).sum +
      ((l.filter Constraint.isLin).map Constraint.size).sum := by
  induction l with
  | nil => simp
  | cons c rest ih =>
    cases c <;> simp [Constraint.isLin, ih] <;> omega

theorem nlRowsAux_length (p : Problem) (l : List Constraint) :
    ∀ cid, (nlRowsAux p cid l).length =
      ((l.filter fun c => !c.isLin).map Constraint.size).sum := by
  induction l with
  | nil => intro cid; simp [nlRowsAux]
  | cons c rest ih =>
    intro cid
    cases c <;> simp [nlRowsAux, Constraint.isLin, Constraint.size, ih]

theorem linBlock_length (p : Problem) (cid : ℕ) (c : Constraint) :
    (linBlock p cid c).length = if c.isLin then c.size else 0 := by
  cases c <;> simp [linBlock, Constraint.isLin, Constraint.size]

theorem linRowsAux_length (p : Problem) (l : List Constraint) :
    ∀ cid, (linRowsAux p cid l).length =
      ((l.filter Constraint.isLin).map Constraint.size).sum := by
  induction l with
  | nil => intro cid; simp [linRowsAux]
  | cons c rest ih =>
    intro cid
    cases c <;> simp [linRowsAux, linBlock, Constraint.isLin, Constraint.size, ih]

theorem iafunStartAux_eq (l : List Constraint) :
    iafunStartAux l = ((l.filter fun c => !c.isLin).map Constraint.size).sum := by
  induction l with
  | nil => simp [iafunStartAux]
  | cons c rest ih =>
    cases c <;> simp [iafunStartAux, Constraint.isLin, Constraint.size, ih]

theorem igfunOffsetsAux_eq_layout (p : Problem) (l : List Constraint) :
    ∀ cid off, jacRowsOkAux p cid l = true →
      igfunOffsetsAux p off cid l = layoutNlOffsetsAux off l := by
  induction l with
  | nil => intro cid off _; rfl
  | cons c rest ih =>
    intro cid off h
    cases c with
    | linear A b =>
      simp [jacRowsOkAux] at h
      simp [igfunOffsetsAux, layoutNlOffsetsAux, ih _ _ h]
    | nonlinear f =>
      simp [jacRowsOkAux, Bool.and_eq_true] at h
      simp [igfunOffsetsAux, layoutNlOffsetsAux, h.1, ih _ _ h.2]

theorem linRowsAux_split (p : Problem) (l : List Constraint) :
    ∀ (i cid0 : ℕ) (A : SpMat) (b : List ℚ),
      l.get? i = some (.linear A b) →
      ∃ pre post, linRowsAux p cid0 l =
          pre ++ linBlock p (cid0 + i) (.linear A b) ++ post ∧
        pre.length =
          (((l.take i).filter Constraint.isLin).map Constraint.size).sum := by
  induction l with
  | nil => intro i cid0 A b h; simp at h
  | cons c rest ih =>
    intro i cid0 A b h
    cases i with
    | zero =>
      simp at h
      subst h
      exact ⟨[], linRowsAux p (cid0 + 1) rest, by simp [linRowsAux], by simp⟩
    | succ j =>
      obtain ⟨pre, post, heq, hlen⟩ := ih j (cid0 + 1) A b (by simpa using h)
      refine ⟨linBlock p cid0 c ++ pre, post, ?_, ?_⟩
      · have harith : cid0 + 1 + j = cid0 + (j + 1) := by omega
        rw [harith] at heq
        simp [linRowsAux, heq, List.append_assoc]
      · cases c <;>
          simp [linBlock, Constraint.isLin, Constraint.size, hlen]

/-! Claim theorems. -/

/-- Claim C9: an invocation of the evaluation callback carrying the
    terminal signal (status >= 2) returns immediately: it writes no
    function values, writes no Jacobian values, publishes no point into
    the solver state and never invokes the monitor. -/
theorem C9_terminal_signal_no_effect (p : Problem) (status needf needg : ℤ)
    (hm : Bool) (x : List ℚ) (h : status ≥ 2) :
    usrfun p status needf needg hm x = ⟨[], [], 0, none⟩ := by
  simp [usrfun, h]

/-- Witness for C9 at a concrete terminal invocation. -/
theorem C9_terminal_signal_no_effect_witness :
    usrfun pbN 2 1 1 true [1] = ⟨[], [], 0, none⟩ :=
  C9_terminal_signal_no_effect pbN 2 1 1 true [1] (by decide)

/-- Claim C10: every non-terminal invocation (status < 2) with a
    registered monitor invokes the monitor exactly once, after first
    publishing the candidate point into the solver state; this holds
    for every combination of the needf/needg flags, including
    invocations requesting neither values nor Jacobians. -/
theorem C10_monitor_called_once (p : Problem) (status needf needg : ℤ)
    (x : List ℚ) (h : status < 2) :
    (usrfun p status needf needg true x).monitorCalls = 1 ∧
    (usrfun p status needf needg true x).stateX = some x := by
  have h2 : ¬ status ≥ 2 := by omega
  simp [usrfun, h2]

/-- Witness for C10 at an invocation requesting neither values nor
    Jacobians. -/
theorem C10_monitor_called_once_witness :
    (usrfun pbN 0 0 0 true [1]).monitorCalls = 1 ∧
    (usrfun pbN 0 0 0 true [1]).stateX = some [1] :=
  C10_monitor_called_once pbN 0 0 0 [1] (by decide)

/-- Claim C8: the tail of `solve ()` stores, for a non-success status
    code, a failure Result carrying the solver's message and the
    last-known point and values, and for the success status a success
    Result decomposing the flat output into x, objective value (row 0),
    constraint values (rows 1..nf-1) and multipliers (same range);
    `translateResult` is total, so no exception leaves this path. -/
theorem C8_result_translation (fc : ℤ) (msg : String) (nf : ℕ)
    (x f fmul : List ℚ) :
    (fc ≠ 0 → translateResult fc msg nf x f fmul =
      .failure msg ⟨x, f.getD 0 0, (f.drop 1).take (nf - 1),
        (fmul.drop 1).take (nf - 1)⟩) ∧
    (fc = 0 → translateResult fc msg nf x f fmul =
      .success ⟨x, f.getD 0 0, (f.drop 1).take (nf - 1),
        (fmul.drop 1).take (nf - 1)⟩) := by
  constructor <;> intro h <;> simp [translateResult, h]

/-- Message used by the concrete witnesses below. -/
def diagMsg : String := "NE_INTERNAL_ERROR"

/-- Witness for C8: a failing status code 1 yields the failure Result
    with the message and the decomposed last state. -/
theorem C8_result_translation_witness :
    translateResult 1 diagMsg 2 [1] [5, 7] [0, 3] =
      Outcome.failure diagMsg ⟨[1], 5, [7], [3]⟩ :=
  (C8_result_translation 1 diagMsg 2 [1] [5, 7] [0, 3]).1 (by decide)

/-- Claim C1 (refuted by the source): in the Jacobian branch of
    `detail::usrfun` the constraint filter is inverted with respect to
    the pattern builder. On `pbN` (one Nonlinear constraint) the pattern
    builder records the constraint's Jacobian (leng = 2) but the
    callback evaluates no constraint Jacobian at all and writes only the
    objective's single entry. -/
theorem C1_needg_filter_inverted :
    gEvaluatedConstraints pbN = [] ∧
    patternConstraints pbN = pbN.constraints ∧
    (usrfunGVals pbN [1]).length = 1 ∧
    leng pbN = 2 := by
  refine ⟨rfl, rfl, ?_, ?_⟩ <;> decide

/-- Claim C2 (refuted by the source): with no starting point and the
    all-finite bound interval [2, 4], `lookForX` returns
    (4 - 2) / 2 = 1, not the midpoint 3, and 1 lies below the lower
    bound 2 (outside the feasible box); with both bounds infinite it
    returns -infinity, not zero. -/
theorem C2_representative_point_not_midpoint :
    lookForX pbNoStart 0 = [RVal.fin 1] ∧
    lookForX pbNoStart 0 ≠ [RVal.fin 3] ∧
    (RVal.fin 2).le (RVal.fin 1) = false ∧
    lookForX pbFree 0 = [RVal.ninf] := by
  have h1 : lookForX pbNoStart 0 = [RVal.fin 1] := by
    simp [lookForX, pbNoStart, Problem.boundsOf, List.range_succ, RVal.sub,
      RVal.half]
    norm_num
  refine ⟨h1, ?_, by decide, by decide⟩
  rw [h1]
  decide

/-- Claim C5 (refuted by the source): `solve ()` does not recompute the
    name arrays afresh. `fill_fnames` and the `xnames_` loop only
    `push_back`; after a second `solve ()` on the same instance the
    function-name array has twice `nf_` entries, so the state differs
    from a single call and the source's own
    `assert (nf_ == fnames_.size ())` fails. -/
theorem C5_second_solve_accumulates_names :
    (solveNamesStep pbN ⟨[], 0⟩).fnames.length = compute_nf pbN ∧
    (solveNamesStep pbN (solveNamesStep pbN ⟨[], 0⟩)).fnames.length =
      2 * compute_nf pbN ∧
    (solveNamesStep pbN (solveNamesStep pbN ⟨[], 0⟩)).fnames.length ≠
      compute_nf pbN ∧
    solveNamesStep pbN (solveNamesStep pbN ⟨[], 0⟩) ≠
      solveNamesStep pbN ⟨[], 0⟩ := by
  refine ⟨?_, ?_, ?_, ?_⟩ <;> decide

/-- Claim C6 (refuted by the source): on `pbL` (a single Linear
    constraint with one nonzero coefficient) the nonlinear pattern
    records only the objective entry (leng = 1), yet the Jacobian
    branch of the callback writes two values — the write offset does
    not end at leng, so `assert (offset == leng)` fails on a
    legitimate problem (after writing past the mapped array). -/
theorem C6_written_count_differs_from_leng :
    (usrfunGVals pbL [0]).length = 2 ∧
    leng pbL = 1 ∧
    (usrfunGVals pbL [0]).length ≠ leng pbL := by
  refine ⟨?_, ?_, ?_⟩ <;> decide

/-- Claim C3: with a scalar objective, the assembled combined row count
    equals 1 plus the sum of all constraint output sizes, and every
    component agrees on the fixed row layout: `fill_flow_fupp` covers
    exactly `nf` rows (row 0 objective, then the nonlinear blocks, then
    the linear blocks), the value branch of the callback ends its write
    offset at `nf`, the linear-pattern builder starts its rows right
    after the nonlinear section, and the nonlinear-pattern builder
    places the nonlinear blocks at the layout offsets whenever the
    Jacobians have as many rows as declared outputs. -/
theorem C3_combined_row_layout (p : Problem) (h1 : p.objective.outSize = 1) :
    compute_nf p = 1 + totalSize p ∧
    (flowFuppPre p).length = compute_nf p ∧
    usrfunFEndOffset p = compute_nf p ∧
    iafunStartOffset p = 1 + sumNl p ∧
    (nlRows p).length = sumNl p ∧
    (linRows p).length = sumLin p ∧
    (jacRowsOk p = true → igfunOffsets p = layoutNlOffsets p) := by
  have hnf : compute_nf p = 1 + totalSize p := by
    simp [compute_nf, totalSize, h1, compute_nfAux_eq_sum]
  have hpart : totalSize p = sumNl p + sumLin p := by
    simpa [totalSize, sumNl, sumLin] using sum_size_partition p.constraints
  have hnl : (nlRows p).length = sumNl p := by
    simpa [nlRows, sumNl] using nlRowsAux_length p p.constraints 0
  have hlin : (linRows p).length = sumLin p := by
    simpa [linRows, sumLin] using linRowsAux_length p p.constraints 0
  refine ⟨hnf, ?_, ?_, ?_, hnl, hlin, ?_⟩
  · rw [hnf]
    simp [flowFuppPre, hnl, hlin]
    omega
  · rw [hnf]
    simp [usrfunFEndOffset]
    omega
  · simp [iafunStartOffset, h1, sumNl, iafunStartAux_eq]
  · intro h
    simp [jacRowsOk, Bool.and_eq_true, beq_iff_eq] at h
    have hrows : (p.objective.jac (lookForX0 p)).rows = 1 := h.1.trans h1
    rw [igfunOffsets, layoutNlOffsets, hrows]
    exact igfunOffsetsAux_eq_layout p p.constraints 0 1 h.2

/-- Witness for C3 on a problem with one nonlinear and one linear
    constraint, also discharging the Jacobian-dimension premise of the
    pattern-offset conjunct. -/
theorem C3_combined_row_layout_witness :
    pbMix.objective.outSize = 1 ∧
    compute_nf pbMix = 1 + totalSize pbMix ∧
    jacRowsOk pbMix = true ∧
    igfunOffsets pbMix = layoutNlOffsets pbMix :=
  ⟨rfl, (C3_combined_row_layout pbMix rfl).1, by decide,
    (C3_combined_row_layout pbMix rfl).2.2.2.2.2.2 (by decide)⟩

/-- Claim C4: each linear constraint's combined-row bounds before
    tolerance snapping are exactly the declared bounds minus that row's
    offset component: its block sits contiguously in `flowFuppPre`, at
    the layout position behind row 0, the nonlinear section and the
    earlier linear blocks. -/
theorem C4_linear_bound_shift (p : Problem) (cid : ℕ) (A : SpMat)
    (b : List ℚ) (h : p.constraints.get? cid = some (.linear A b)) :
    ∃ pre post,
      flowFuppPre p = pre ++ ((List.range A.rows).map fun k =>
          ((p.boundsOf cid k).1.sub (RVal.fin (b.getD k 0)),
           (p.boundsOf cid k).2.sub (RVal.fin (b.getD k 0)))) ++ post ∧
      pre.length = 1 + (nlRows p).length +
        (((p.constraints.take cid).filter Constraint.isLin).map
          Constraint.size).sum := by
  obtain ⟨pre, post, heq, hlen⟩ :=
    linRowsAux_split p p.constraints cid 0 A b h
  rw [Nat.zero_add] at heq
  refine ⟨(RVal.ninf, RVal.pinf) :: (nlRows p ++ pre), post, ?_, ?_⟩
  · simp [flowFuppPre, linRows, heq, linBlock, List.append_assoc]
  · simp [hlen]
    omega

/-- Witness for C4 on the concrete linear constraint of `pbL`. -/
theorem C4_linear_bound_shift_witness :
    ∃ pre post,
      flowFuppPre pbL = pre ++ ((List.range matA.rows).map fun k =>
          ((pbL.boundsOf 0 k).1.sub (RVal.fin (List.getD [5] k 0)),
           (pbL.boundsOf 0 k).2.sub (RVal.fin (List.getD [5] k 0)))) ++ post ∧
      pre.length = 1 + (nlRows pbL).length +
        (((pbL.constraints.take 0).filter Constraint.isLin).map
          Constraint.size).sum :=
  C4_linear_bound_shift pbL 0 matA [5] rfl

/-- Claim C7: after bounds assembly, a bound within the tolerance of
    zero is set to exactly zero; a lower/upper pair within the
    tolerance of equal (after the zero snap, as the source tests it) is
    made exactly equal; and every row of a successful assembly
    satisfies lower <= upper, the check failing fatally (`none`)
    exactly when some snapped row violates it. -/
theorem C7_bound_snapping (p : Problem) (lo hi : RVal)
    (out : List (RVal × RVal)) :
    (lo.absLt snapTol = true → (snapRow (lo, hi)).1 = RVal.fin 0) ∧
    (hi.absLt snapTol = true → (snapRow (lo, hi)).2 = RVal.fin 0) ∧
    ((if lo.absLt snapTol then RVal.fin 0 else lo).diffAbsLt
        (if hi.absLt snapTol then RVal.fin 0 else hi) snapTol = true →
      (snapRow (lo, hi)).1 = (snapRow (lo, hi)).2) ∧
    (fill_flow_fupp p = some out → ∀ r ∈ out, r.1.le r.2 = true) ∧
    (fill_flow_fupp p = none →
      ∃ r ∈ (flowFuppPre p).map snapRow, r.1.le r.2 = false) := by
  refine ⟨?_, ?_, ?_, ?_, ?_⟩
  · intro h
    by_cases habs : hi.absLt snapTol = true
    · simp [snapRow, h, habs]
    · have habs' : hi.absLt snapTol = false := by simpa using habs
      cases hi with
      | fin q =>
        have hq : ¬ |q| < snapTol := by simpa [RVal.absLt] using habs'
        simp [snapRow, h, habs', RVal.diffAbsLt]
        exact fun hc => absurd hc hq
      | nan => simp [snapRow, h, habs', RVal.diffAbsLt]
      | ninf => simp [snapRow, h, habs', RVal.diffAbsLt]
      | pinf => simp [snapRow, h, habs', RVal.diffAbsLt]
  · intro h
    simp [snapRow, h]
  · intro h
    simp [snapRow] at h ⊢
    simp [h]
  · intro h r hr
    have hdef : fill_flow_fupp p =
        (if ((flowFuppPre p).map snapRow).all (fun r => r.1.le r.2) = true
         then some ((flowFuppPre p).map snapRow) else none) := rfl
    rw [hdef] at h
    split at h
    case isTrue hall =>
      cases h
      exact List.all_eq_true.mp hall r hr
    case isFalse hall => cases h
  · intro h
    have hdef : fill_flow_fupp p =
        (if ((flowFuppPre p).map snapRow).all (fun r => r.1.le r.2) = true
         then some ((flowFuppPre p).map snapRow) else none) := rfl
    rw [hdef] at h
    split at h
    case isTrue hall => cases h
    case isFalse hall =>
      have hex : ∃ a b, (a, b) ∈ flowFuppPre p ∧
          (snapRow (a, b)).1.le (snapRow (a, b)).2 = false := by
        simpa [List.all_eq_true] using hall
      rcases hex with ⟨a, b, hmem, hfalse⟩
      exact ⟨snapRow (a, b), List.mem_map_of_mem _ hmem, hfalse⟩

/-- Witness for C7: a lower bound within tolerance of zero is snapped
    to exactly zero, and on the concrete problem `pbL` the assembly
    succeeds with every row satisfying lower <= upper. -/
theorem C7_bound_snapping_witness :
    (RVal.fin (1 / 2000000)).absLt snapTol = true ∧
    (snapRow (RVal.fin (1 / 2000000), RVal.fin 5)).1 = RVal.fin 0 ∧
    fill_flow_fupp pbL = some snappedL ∧
    (∀ r ∈ snappedL, r.1.le r.2 = true) := by
  have h1 : (RVal.fin (1 / 2000000)).absLt snapTol = true := by
    simp only [RVal.absLt, snapTol, decide_eq_true_eq]
    rw [abs_of_pos (by norm_num : (0 : ℚ) < 1 / 2000000)]
    norm_num
  have hpre : flowFuppPre pbL =
      [(RVal.ninf, RVal.pinf), (RVal.fin (-4), RVal.fin (-2))] := by
    simp [flowFuppPre, nlRows, linRows, nlRowsAux, linRowsAux, linBlock, pbL,
      Problem.boundsOf, List.range_succ, RVal.sub, matA]
    norm_num
  have h3 : fill_flow_fupp pbL = some snappedL := by
    have hdef : fill_flow_fupp pbL =
        (if ((flowFuppPre pbL).map snapRow).all (fun r => r.1.le r.2) = true
         then some ((flowFuppPre pbL).map snapRow) else none) := rfl
    rw [hdef, hpre]
    simp [snapRow, snappedL, RVal.absLt, RVal.diffAbsLt, RVal.le, snapTol]
    norm_num
  exact ⟨h1,
    (C7_bound_snapping pbL (RVal.fin (1 / 2000000)) (RVal.fin 5) snappedL).1 h1,
    h3,
    (C7_bound_snapping pbL (RVal.fin (1 / 2000000)) (RVal.fin 5) snappedL).2.2.2.1 h3⟩
